import Mathlib

/-!
Verification of the Abacus column-alignment command
(`Backup/20120117172841/Abacus/Abacus.py`).

Modelling conventions (a shallow embedding of the Python code):
* a Python string is a `List Char` (`Str` below);
* the editor document is a `List Str` of line contents, without the line
  terminators; the source's replacement text `"%s%s\n" % (left, right)`
  rewrites a full line including its terminator, which here is the update
  of that entry of the list;
* the selection is the list of line numbers covered by the selected
  regions, in the order the `for region in selection / for line in lines`
  loops visit them (duplicates allowed, as overlapping regions produce
  them in the editor too);
* the new selection is reported as `(line, column)` cursor positions —
  the source places each cursor `indent + left_col_width` characters past
  the start of the candidate's line;
* `gravity` is kept as the raw string the configuration supplies, exactly
  as the Python compares it against `"left"` and `"right"`;
* the configured `tab_size` is a `Nat` parameter `tw`.  The Python code
  divides by it, so the editor contract (`tab_size` positive) is assumed
  where relevant;
* separator tokens are non-empty strings by the configuration contract;
  `str.rpartition("")` raises in Python, so empty tokens never reach the
  partitioning code.
-/

namespace Abacus

abbrev Str := List Char

/-- Python whitespace: the characters matched by `\s` and removed by
`str.strip` / `str.lstrip` / `str.rstrip`. -/
def isPySpace (c : Char) : Bool :=
  c = ' ' || c = '\t' || c = '\n' || c = '\r' || c = '\x0b' || c = '\x0c'

/-- Python `s.lstrip()`. -/
def lstrip (s : Str) : Str := s.dropWhile isPySpace

/-- Python `s.rstrip()`. -/
def rstrip (s : Str) : Str := (s.reverse.dropWhile isPySpace).reverse

/-- Python `s.strip()`. -/
def pystrip (s : Str) : Str := rstrip (lstrip s)

/-- Python `s.ljust(n)`: pad on the right with spaces to length `n`
(no truncation when `s` is already longer). -/
def ljust (s : Str) (n : Nat) : Str := s ++ List.replicate (n - s.length) ' '

/-- `matchAt s t i`: the token `t` occurs in `s` at position `i`. -/
def matchAt (s t : Str) (i : Nat) : Bool := decide ((s.drop i).take t.length = t)

/-- Scan for `t` in `s` from position `n` downwards, returning the first
(i.e. the highest) position where it occurs. -/
def rfindFrom (s t : Str) : Nat → Option Nat
  | 0 => if matchAt s t 0 then some 0 else none
  | i + 1 => if matchAt s t (i + 1) then some (i + 1) else rfindFrom s t i

/-- Python `s.rfind(t)`: the index of the rightmost occurrence of `t` in
`s`, if any. -/
def rfind (s t : Str) : Option Nat :=
  if t.length ≤ s.length then rfindFrom s t (s.length - t.length) else none

/-- Python `s.rpartition(t)`: split `s` at the last occurrence of `t`; when
`t` does not occur the result is `("", "", s)`. -/
def rpartition (s t : Str) : Str × Str × Str :=
  match rfind s t with
  | some i => (s.take i, t, s.drop (i + t.length))
  | none => ([], [], s)

/-- The scan of Python `s.replace(old, new)`, replacing every occurrence
of `old` from left to right without overlap.  Each step consumes at least
one character, so the recursion is bounded by the scanned string's
length, threaded as structural fuel to keep the definition reducible; the
out-of-fuel case is never reached from `pyreplace`. -/
def pyreplaceFuel (old new : Str) : Nat → Str → Str
  | _, [] => []
  | 0, s => s
  | fuel + 1, c :: rest =>
    if matchAt (c :: rest) old 0 = true ∧ old ≠ [] then
      new ++ pyreplaceFuel old new fuel (rest.drop (old.length - 1))
    else
      c :: pyreplaceFuel old new fuel rest

/-- Python `s.replace(old, new)`.  (Python's behaviour for an empty `old`
is irrelevant here: the replaced strings are quoted literals, of length
at least two.) -/
def pyreplace (old new : Str) (s : Str) : Str := pyreplaceFuel old new s.length s

/-- The scan behind `findQuoted`, with the same structural fuel device:
each step consumes at least one character. -/
def findQuotedFuel : Nat → Str → List Str
  | _, [] => []
  | 0, _ => []
  | fuel + 1, c :: rest =>
    if c = '"' ∨ c = '\x27' then
      match rest.findIdx? (fun d => d = c) with
      | some j => (c :: (rest.take j ++ [c])) :: findQuotedFuel fuel (rest.drop (j + 1))
      | none => findQuotedFuel fuel rest
    else findQuotedFuel fuel rest

/-- The successive matches of the regular expression
`("[^"]*"|'[^']*')` on a line, as found by `re.finditer`: at a quote
character with a matching closing quote of the same kind, the match runs
to that closing quote and scanning resumes after it; otherwise scanning
moves one character on. -/
def findQuoted (s : Str) : List Str := findQuotedFuel s.length s

/-- The "collapsed" copy of a line: for each quoted-literal match, in
order, every occurrence of that matched text is replaced by a run of `_`
of the same length (`collapsed = collapsed.replace(quoted_string, "_" * len(quoted_string))`). -/
def collapseQuoted (line : Str) : Str :=
  (findQuoted line).foldl (fun col q => pyreplace q (List.replicate q.length '_') col) line

/-- Python `input.expandtabs(tw)` with column bookkeeping: a tab advances
to the next multiple of `tw` (and disappears when `tw = 0`), newline and
carriage return reset the column. -/
def expandtabsFrom (tw : Nat) : Str → Nat → Str
  | [], _ => []
  | c :: rest, col =>
    if c = '\t' then
      if 0 < tw then
        List.replicate (tw - col % tw) ' ' ++ expandtabsFrom tw rest (col + (tw - col % tw))
      else
        expandtabsFrom tw rest col
    else if c = '\n' ∨ c = '\r' then
      c :: expandtabsFrom tw rest 0
    else
      c :: expandtabsFrom tw rest (col + 1)

/-- `AbacusCommand.detab`. -/
def detab (tw : Nat) (s : Str) : Str := expandtabsFrom tw s 0

/-- `re.match("\s+", left_col)` reduced to what the code uses: the length
of the leading whitespace run, or `None` when there is none. -/
def initialIndent (left : Str) : Option Nat :=
  if (left.takeWhile isPySpace) = [] then none else some (left.takeWhile isPySpace).length

/-- One entry of the configured `abacus_alignment_separators` list. -/
structure Separator where
  token : Str
  gravity : Str
deriving DecidableEq, Repr

/-- The candidate dictionary built by `find_candidates_for_separator`
(the key `"original"` included, although reconstruction never reads it). -/
structure Candidate where
  line : Nat
  original : Str
  separator : Str
  gravity : Str
  initial_indent : Option Nat
  left_col : Str
  right_col : Str
deriving DecidableEq, Repr

/-- The body of `find_candidates_for_separator`'s inner loop for one line:
the cheap substring pre-filter, the collapse of quoted literals, the
`rpartition` on the last occurrence, the all-three-parts-non-empty check,
and the construction of the candidate from the original (uncollapsed)
text. -/
def candidatesForLine (tw : Nat) (sep : Separator) (ln : Nat) (line_content : Str) :
    List Candidate :=
  if (rfind line_content sep.token).isSome then
    if (rpartition (collapseQuoted line_content) sep.token).1 ≠ [] ∧
       (rpartition (collapseQuoted line_content) sep.token).2.1 ≠ [] ∧
       (rpartition (collapseQuoted line_content) sep.token).2.2 ≠ [] then
      [{ line := ln,
         original := line_content,
         separator := (line_content.drop (rpartition (collapseQuoted line_content) sep.token).1.length).take sep.token.length,
         gravity := sep.gravity,
         initial_indent := initialIndent (detab tw (line_content.take (rpartition (collapseQuoted line_content) sep.token).1.length)),
         left_col := lstrip (detab tw (line_content.take (rpartition (collapseQuoted line_content) sep.token).1.length)),
         right_col := rstrip (detab tw (line_content.drop ((rpartition (collapseQuoted line_content) sep.token).1.length + sep.token.length))) }]
    else []
  else []

/-- `AbacusCommand.find_candidates_for_separator`: scan every selected
line (an out-of-range line number contributes nothing; the editor never
produces one). -/
def find_candidates_for_separator (tw : Nat) (doc : List Str) (selection : List Nat)
    (sep : Separator) : List Candidate :=
  selection.flatMap (fun ln =>
    match doc.get? ln with
    | some line_content => candidatesForLine tw sep ln line_content
    | none => [])

/-- One pass of the accumulation loop in `calc_left_col_width`.  In the
Python 2 source `initial_indent` can be `None`, which `max` orders below
every integer, hence the `Option` match. -/
def calcStep (tw : Nat) (acc : Nat × Nat × Nat) (c : Candidate) : Nat × Nat × Nat :=
  (match c.initial_indent with
   | none => max acc.1 tw
   | some k => max k (max acc.1 tw),
   max c.separator.length acc.2.1,
   max c.left_col.length acc.2.2)

/-- The accumulation loop of `calc_left_col_width`:
`(indent, sep_width, width)` maxima over the candidates, all starting
at `0`. -/
def calcFold (tw : Nat) (cands : List Candidate) : Nat × Nat × Nat :=
  cands.foldl (calcStep tw) (0, 0, 0)

/-- The tail of `calc_left_col_width` acting on
`width = max left width + sep_width`: add a tab when already on a tab
boundary, then add `width % tab_width`. -/
def widthAdjust (tw w : Nat) : Nat :=
  (if w % tw = 0 then w + tw else w) + (if w % tw = 0 then w + tw else w) % tw

/-- `AbacusCommand.calc_left_col_width`. -/
def calc_left_col_width (tw : Nat) (cands : List Candidate) : Nat × Nat :=
  ((calcFold tw cands).1 - (calcFold tw cands).1 % tw,
   widthAdjust tw ((calcFold tw cands).2.2 + (calcFold tw cands).2.1))

/-- The per-candidate part of `run`'s reconstruction loop before the final
`ljust`: the indent-prefixed left column and the stripped right column,
adjusted for gravity exactly as the `if/elif` does (an unrecognized
gravity string falls through both branches). -/
def gravitate (indent left_col_width : Nat) (c : Candidate) : Str × Str :=
  if c.gravity = "left".data then
    ((List.replicate indent ' ' ++ c.left_col) ++ c.separator, pystrip c.right_col)
  else if c.gravity = "right".data then
    ((List.replicate indent ' ' ++ c.left_col)
       ++ List.replicate (left_col_width + indent - (List.replicate indent ' ' ++ c.left_col).length - c.separator.length) ' '
       ++ List.replicate c.separator.length ' '
       ++ c.separator,
     ' ' :: pystrip c.right_col)
  else
    (List.replicate indent ' ' ++ c.left_col, pystrip c.right_col)

/-- The full replacement text `run` computes for one candidate (without
the terminating `"\n"`, which in this model is the line terminator). -/
def alignLine (indent left_col_width : Nat) (c : Candidate) : Str :=
  ljust (gravitate indent left_col_width c).1 (indent + left_col_width)
    ++ (gravitate indent left_col_width c).2

/-- The column at which the right-hand column string is appended in the
candidate's replacement line. -/
def rightColStart (indent left_col_width : Nat) (c : Candidate) : Nat :=
  (ljust (gravitate indent left_col_width c).1 (indent + left_col_width)).length

/-- Ordering used by `sorted(separators, key=lambda sep: len(sep["token"]))`. -/
def sepLe (a b : Separator) : Prop := a.token.length ≤ b.token.length

instance : DecidableRel sepLe := fun a b => Nat.decLe a.token.length b.token.length

instance : IsTotal Separator sepLe := ⟨fun a b => Nat.le_total a.token.length b.token.length⟩

instance : IsTrans Separator sepLe := ⟨fun _ _ _ h h' => Nat.le_trans h h'⟩

/-- Python's `sorted` by token length: a stable sort, modelled by
insertion sort with the non-strict length ordering. -/
def sortSeps (seps : List Separator) : List Separator := List.insertionSort sepLe seps

/-- All candidates of one invocation: each separator spec in ascending
token-length order contributes its candidates, concatenated in order. -/
def allCandidates (tw : Nat) (seps : List Separator) (doc : List Str) (sel : List Nat) :
    List Candidate :=
  (sortSeps seps).flatMap (find_candidates_for_separator tw doc sel)

/-- `AbacusCommand.run`: discovery over the sorted separator specs, one
shared layout computation, a full-line replacement per candidate in
order, and the new cursor list (one cursor per candidate, at column
`indent + left_col_width` of its line). -/
def run (tw : Nat) (seps : List Separator) (doc : List Str) (sel : List Nat) :
    List Str × List (Nat × Nat) :=
  ((allCandidates tw seps doc sel).foldl
     (fun d c =>
       d.set c.line
         (alignLine (calc_left_col_width tw (allCandidates tw seps doc sel)).1
           (calc_left_col_width tw (allCandidates tw seps doc sel)).2 c))
     doc,
   (allCandidates tw seps doc sel).map
     (fun c =>
       (c.line,
        (calc_left_col_width tw (allCandidates tw seps doc sel)).1
          + (calc_left_col_width tw (allCandidates tw seps doc sel)).2)))

/-- The last candidate in the list whose recorded line number is `ln` —
the one whose full-line replacement survives after the reconstruction
loop rewrites the line once per candidate, in order. -/
def lastWrite (ln : Nat) : List Candidate → Option Candidate
  | [] => none
  | c :: rest =>
    match lastWrite ln rest with
    | some c' => some c'
    | none => if c.line = ln then some c else none

/-! ### Helper lemmas -/

lemma matchAt_le {s t : Str} {i : Nat} (ht : t ≠ []) (h : matchAt s t i = true) :
    i + t.length ≤ s.length := by
  have h' : (s.drop i).take t.length = t := by simpa [matchAt] using h
  have hl : ((s.drop i).take t.length).length = t.length := by rw [h']
  rw [List.length_take, List.length_drop] at hl
  have ht' : 0 < t.length := List.length_pos.mpr ht
  omega

lemma rfindFrom_spec (s t : Str) :
    ∀ n i, rfindFrom s t n = some i →
      matchAt s t i = true ∧ i ≤ n ∧ ∀ j, j ≤ n → matchAt s t j = true → j ≤ i := by
  intro n
  induction n with
  | zero =>
    intro i h
    rw [rfindFrom] at h
    split at h
    · rename_i hm
      cases h
      exact ⟨hm, Nat.le_refl 0, fun j hj _ => hj⟩
    · exact absurd h (by simp)
  | succ m ih =>
    intro i h
    rw [rfindFrom] at h
    split at h
    · rename_i hm
      cases h
      exact ⟨hm, Nat.le_refl _, fun j hj _ => hj⟩
    · rename_i hm
      obtain ⟨h1, h2, h3⟩ := ih i h
      refine ⟨h1, Nat.le_succ_of_le h2, fun j hj hmj => ?_⟩
      rcases Nat.eq_or_lt_of_le hj with h4 | h4
      · exact absurd (h4 ▸ hmj) (by simpa using hm)
      · exact h3 j (by omega) hmj

lemma rfind_spec {s t : Str} {i : Nat} (ht : t ≠ []) (h : rfind s t = some i) :
    matchAt s t i = true ∧ ∀ j, matchAt s t j = true → j ≤ i := by
  rw [rfind] at h
  split at h
  · obtain ⟨h1, _, h3⟩ := rfindFrom_spec s t _ i h
    refine ⟨h1, fun j hj => ?_⟩
    have hb := matchAt_le ht hj
    exact h3 j (by omega) hj
  · exact absurd h (by simp)

lemma pyreplaceFuel_length (old new : Str) (hlen : new.length = old.length) :
    ∀ fuel s, List.length s ≤ fuel → (pyreplaceFuel old new fuel s).length = s.length := by
  intro fuel
  induction fuel with
  | zero =>
    intro s hs
    have hnil : s = [] := List.length_eq_zero.mp (by omega)
    subst hnil
    rfl
  | succ m ih =>
    intro s hs
    cases s with
    | nil => rfl
    | cons c rest =>
      rw [pyreplaceFuel]
      split
      · rename_i hcond
        have hp : 0 < old.length := List.length_pos.mpr hcond.2
        have hb : old.length ≤ rest.length + 1 := by
          simpa using matchAt_le hcond.2 hcond.1
        have ihr := ih (rest.drop (old.length - 1))
          (by simp only [List.length_drop]; simp only [List.length_cons] at hs; omega)
        simp only [List.length_append, ihr, List.length_drop, List.length_cons, hlen]
        omega
      · have ihr := ih rest (by simp only [List.length_cons] at hs; omega)
        simp only [List.length_cons, ihr]

lemma pyreplace_length (old new : Str) (hlen : new.length = old.length) :
    ∀ s, (pyreplace old new s).length = s.length :=
  fun s => pyreplaceFuel_length old new hlen s.length s (Nat.le_refl _)

lemma collapseQuoted_length (line : Str) :
    (collapseQuoted line).length = line.length := by
  have key : ∀ (qs : List Str) (s : Str),
      ((qs.foldl (fun col q => pyreplace q (List.replicate q.length '_') col) s)).length
        = s.length := by
    intro qs
    induction qs with
    | nil => intro s; rfl
    | cons q rest ih =>
      intro s
      rw [List.foldl_cons, ih]
      exact pyreplace_length q _ (List.length_replicate _ _) s
  exact key (findQuoted line) line

lemma foldl_calcStep_ge (tw : Nat) (cands : List Candidate) :
    ∀ init : Nat × Nat × Nat,
      init.2.1 ≤ (cands.foldl (calcStep tw) init).2.1 ∧
      init.2.2 ≤ (cands.foldl (calcStep tw) init).2.2 := by
  induction cands with
  | nil => intro init; exact ⟨Nat.le_refl _, Nat.le_refl _⟩
  | cons c rest ih =>
    intro init
    have h := ih (calcStep tw init c)
    rw [List.foldl_cons]
    exact ⟨Nat.le_trans (Nat.le_max_right _ _) h.1, Nat.le_trans (Nat.le_max_right _ _) h.2⟩

lemma calcFold_bound (tw : Nat) (cands : List Candidate) (c : Candidate) (hc : c ∈ cands) :
    c.separator.length ≤ (calcFold tw cands).2.1 ∧
    c.left_col.length ≤ (calcFold tw cands).2.2 := by
  suffices h : ∀ (l : List Candidate) (init : Nat × Nat × Nat), c ∈ l →
      c.separator.length ≤ (l.foldl (calcStep tw) init).2.1 ∧
      c.left_col.length ≤ (l.foldl (calcStep tw) init).2.2 by
    exact h cands (0, 0, 0) hc
  intro l
  induction l with
  | nil => intro init hmem; exact absurd hmem (List.not_mem_nil c)
  | cons d rest ih =>
    intro init hmem
    rw [List.foldl_cons]
    rcases List.mem_cons.mp hmem with h | h
    · subst h
      have hg := foldl_calcStep_ge tw rest (calcStep tw init c)
      exact ⟨Nat.le_trans (Nat.le_max_left _ _) hg.1, Nat.le_trans (Nat.le_max_left _ _) hg.2⟩
    · exact ih (calcStep tw init d) h

lemma widthAdjust_ge (tw w : Nat) : w ≤ widthAdjust tw w := by
  unfold widthAdjust
  by_cases h : w % tw = 0
  · rw [if_pos h]
    omega
  · rw [if_neg h]
    omega

lemma calc_width_ge (tw : Nat) (cands : List Candidate) (c : Candidate) (hc : c ∈ cands) :
    c.left_col.length + c.separator.length ≤ (calc_left_col_width tw cands).2 := by
  obtain ⟨h1, h2⟩ := calcFold_bound tw cands c hc
  have h3 := widthAdjust_ge tw ((calcFold tw cands).2.2 + (calcFold tw cands).2.1)
  simp only [calc_left_col_width]
  omega

lemma widthAdjust_mod (tw w : Nat) : widthAdjust tw w % tw = (2 * w) % tw := by
  unfold widthAdjust
  by_cases h : w % tw = 0
  · have h2 : (w + tw) % tw = 0 := by rw [Nat.add_mod_right]; exact h
    rw [if_pos h, h2, Nat.add_zero, h2, Nat.two_mul, Nat.add_mod, h, Nat.add_zero,
      Nat.zero_mod]
  · rw [if_neg h, Nat.two_mul, Nat.add_mod w w, Nat.add_mod w (w % tw),
      Nat.mod_mod_of_dvd w (dvd_refl tw)]

lemma ljust_length (s : Str) (n : Nat) : (ljust s n).length = max s.length n := by
  simp only [ljust, List.length_append, List.length_replicate]
  omega

lemma rightColStart_formula (i w : Nat) (c : Candidate)
    (h : c.left_col.length + c.separator.length ≤ w) :
    rightColStart i w c
      = i + w + (if c.gravity = "right".data then c.separator.length else 0) := by
  by_cases hr : c.gravity = "right".data
  · have hl : ¬ c.gravity = "left".data := by rw [hr]; decide
    rw [if_pos hr]
    simp only [rightColStart, gravitate, if_neg hl, if_pos hr, ljust_length,
      List.length_append, List.length_replicate]
    omega
  · rw [if_neg hr]
    by_cases hl : c.gravity = "left".data
    · simp only [rightColStart, gravitate, if_pos hl, ljust_length,
        List.length_append, List.length_replicate]
      omega
    · simp only [rightColStart, gravitate, if_neg hl, if_neg hr, ljust_length,
        List.length_append, List.length_replicate]
      omega

lemma drop_of_eq_length (A B : Str) (n : Nat) (hA : A.length = n) : (A ++ B).drop n = B := by
  subst hA
  exact List.drop_left A B

lemma alignLine_right (i w : Nat) (c : Candidate) (hg : c.gravity = "right".data)
    (h : c.left_col.length + c.separator.length ≤ w) :
    alignLine i w c
      = List.replicate i ' ' ++ c.left_col
        ++ List.replicate (w - c.left_col.length - c.separator.length) ' '
        ++ List.replicate c.separator.length ' '
        ++ c.separator ++ ' ' :: pystrip c.right_col := by
  have hl : ¬ c.gravity = "left".data := by rw [hg]; decide
  have hcount : w + i - (List.replicate i ' ' ++ c.left_col).length - c.separator.length
      = w - c.left_col.length - c.separator.length := by
    simp only [List.length_append, List.length_replicate]
    omega
  simp only [alignLine, gravitate, if_neg hl, if_pos hg, hcount, ljust]
  have hpad : ∀ X : Str, X.length = i + w + c.separator.length →
      List.replicate (i + w - X.length) ' ' = [] := by
    intro X hX
    rw [hX]
    have hz : i + w - (i + w + c.separator.length) = 0 := by omega
    rw [hz, List.replicate_zero]
  rw [hpad _ (by simp only [List.length_append, List.length_replicate]; omega)]
  simp [List.append_assoc]

lemma foldl_set_get (f : Candidate → Str) (ln : Nat) :
    ∀ (cs : List Candidate) (d : List Str), ln < d.length →
      (cs.foldl (fun dd c => dd.set c.line (f c)) d).get? ln
        = (lastWrite ln cs).elim (d.get? ln) (fun c => some (f c)) := by
  intro cs
  induction cs with
  | nil => intro d _; rfl
  | cons c rest ih =>
    intro d hd
    rw [List.foldl_cons, lastWrite]
    have hd' : ln < (d.set c.line (f c)).length := by simpa using hd
    rw [ih _ hd']
    cases hlw : lastWrite ln rest with
    | some c' => simp [hlw]
    | none =>
      simp only [hlw, Option.elim]
      by_cases hcl : c.line = ln
      · subst hcl
        rw [if_pos rfl, List.get?_set_eq_of_lt _ hd]
      · rw [if_neg hcl, List.get?_set_ne _ _ hcl]

lemma foldl_set_get_ne (f : Candidate → Str) (ln : Nat) :
    ∀ (cs : List Candidate) (d : List Str), (∀ c ∈ cs, c.line ≠ ln) →
      (cs.foldl (fun dd c => dd.set c.line (f c)) d).get? ln = d.get? ln := by
  intro cs
  induction cs with
  | nil => intro d _; rfl
  | cons c rest ih =>
    intro d h
    rw [List.foldl_cons, ih _ (fun x hx => h x (List.mem_cons_of_mem c hx)),
      List.get?_set_ne _ _ (h c (List.mem_cons_self c rest))]

/-! ### Claim theorems -/

/-- C1, corrected: the width returned by `calc_left_col_width` is not in
general a multiple of the tab width.  After the boundary adjustment the
code adds `width % tab_width` (not the complement to the next multiple),
so the returned width is congruent to twice the raw width
(max left-column width + max separator width) modulo the tab width. -/
theorem calc_width_mod_congruence (tw : Nat) (cands : List Candidate) :
    (calc_left_col_width tw cands).2 % tw
      = (2 * ((calcFold tw cands).2.2 + (calcFold tw cands).2.1)) % tw :=
  widthAdjust_mod tw _

/-- C1, counterexample: the single discovered candidate of the line
`abcd=e` at tab width 4 has left-column width 4 and separator width 1, and
`calc_left_col_width` returns width 6, which is not a multiple of 4 — the
right-hand content of this invocation does not start on a tab stop. -/
theorem calc_width_not_tab_multiple :
    candidatesForLine 4 ⟨"=".data, "left".data⟩ 0 "abcd=e".data
      = [{ line := 0, original := "abcd=e".data, separator := "=".data,
           gravity := "left".data, initial_indent := none,
           left_col := "abcd".data, right_col := "e".data }]
  ∧ calc_left_col_width 4
      [{ line := 0, original := "abcd=e".data, separator := "=".data,
         gravity := "left".data, initial_indent := none,
         left_col := "abcd".data, right_col := "e".data }] = (4, 6)
  ∧ ¬ (6 % 4 = 0) :=
  ⟨by decide, by decide, by decide⟩

/-- C2, code bug: aligning the single line `x=1` with separator `=` of
RIGHT gravity at tab width 4 yields `    x   = 1`; running the alignment
again over that already-aligned line changes it to `    x     = 1`
(the stored left segment keeps the padding spaces that precede the
separator, so the shared width grows), contradicting idempotence. -/
theorem run_twice_changes :
    (run 4 [⟨"=".data, "right".data⟩] ["x=1".data] [0]).1 = ["    x   = 1".data]
  ∧ (run 4 [⟨"=".data, "right".data⟩] ["    x   = 1".data] [0]).1
      = ["    x     = 1".data]
  ∧ ¬ ("    x     = 1".data = "    x   = 1".data) :=
  ⟨by decide, by decide, by decide⟩

/-- C6, confirmed: when discovery yields zero candidates the invocation
returns the document unchanged and an empty selection. -/
theorem run_no_candidates (tw : Nat) (seps : List Separator) (doc : List Str)
    (sel : List Nat) (h : allCandidates tw seps doc sel = []) :
    run tw seps doc sel = (doc, []) := by
  simp [run, h]

/-- Witness for C6: a selected line with no occurrence of the separator
produces no candidates, and the invocation is a no-op with an empty
resulting selection. -/
theorem run_no_candidates_witness :
    allCandidates 4 [⟨"=".data, "left".data⟩] ["no separators here".data] [0] = []
  ∧ run 4 [⟨"=".data, "left".data⟩] ["no separators here".data] [0]
      = (["no separators here".data], []) :=
  ⟨by decide, run_no_candidates 4 _ _ _ (by decide)⟩

/-- C7, confirmed: `rpartition` splits at the position `rfind` reports,
which carries an occurrence of the token and bounds every other
occurrence from above (the rightmost match wins); in particular the line
`a = b = c` with separator `=` is split at its second `=`, storing
`a = b ` as the left segment. -/
theorem rpartition_last_occurrence (s t : Str) (i : Nat) (ht : t ≠ [])
    (h : rfind s t = some i) :
    (rpartition s t = (s.take i, t, s.drop (i + t.length))
      ∧ matchAt s t i = true
      ∧ ∀ j, matchAt s t j = true → j ≤ i)
  ∧ candidatesForLine 4 ⟨"=".data, "left".data⟩ 0 "a = b = c".data
      = [{ line := 0, original := "a = b = c".data, separator := "=".data,
           gravity := "left".data, initial_indent := none,
           left_col := "a = b ".data, right_col := " c".data }] := by
  have hs := rfind_spec ht h
  exact ⟨⟨by simp [rpartition, h], hs.1, hs.2⟩, by decide⟩

/-- Witness for C7: the rightmost `=` of `a = b = c` is at index 6. -/
theorem rpartition_last_occurrence_witness :
    (("=".data : Str) ≠ []) ∧ rfind "a = b = c".data "=".data = some 6
  ∧ ((rpartition "a = b = c".data "=".data
        = ("a = b = c".data.take 6, "=".data,
           "a = b = c".data.drop (6 + "=".data.length))
      ∧ matchAt "a = b = c".data "=".data 6 = true
      ∧ ∀ j, matchAt "a = b = c".data "=".data j = true → j ≤ 6)
     ∧ candidatesForLine 4 ⟨"=".data, "left".data⟩ 0 "a = b = c".data
        = [{ line := 0, original := "a = b = c".data, separator := "=".data,
             gravity := "left".data, initial_indent := none,
             left_col := "a = b ".data, right_col := " c".data }]) :=
  ⟨by decide, by decide,
    rpartition_last_occurrence "a = b = c".data "=".data 6 (by decide) (by decide)⟩

/-- C9, confirmed: a line/separator pair whose three-way partition of the
collapsed line does not have all three parts non-empty — in particular a
line equal to the token, or whose last token occurrence sits at the very
start or very end of the collapsed line — yields no candidate; and a line
for which no candidate at all was discovered is left untouched by the
invocation. -/
theorem degenerate_no_candidate (tw : Nat) (sep : Separator) (ln : Nat) (line : Str)
    (seps : List Separator) (doc : List Str) (sel : List Nat)
    (ht : sep.token ≠ [])
    (hdeg : line = sep.token
      ∨ rfind (collapseQuoted line) sep.token = some 0
      ∨ rfind (collapseQuoted line) sep.token
          = some ((collapseQuoted line).length - sep.token.length)
      ∨ ¬ ((rpartition (collapseQuoted line) sep.token).1 ≠ []
           ∧ (rpartition (collapseQuoted line) sep.token).2.1 ≠ []
           ∧ (rpartition (collapseQuoted line) sep.token).2.2 ≠ []))
    (hno : ∀ c ∈ allCandidates tw seps doc sel, c.line ≠ ln) :
    candidatesForLine tw sep ln line = []
    ∧ (run tw seps doc sel).1.get? ln = doc.get? ln := by
  constructor
  · have hinv : ¬ ((rpartition (collapseQuoted line) sep.token).1 ≠ []
        ∧ (rpartition (collapseQuoted line) sep.token).2.1 ≠ []
        ∧ (rpartition (collapseQuoted line) sep.token).2.2 ≠ []) := by
      rcases hdeg with h | h | h | h
      · subst h
        cases hr : rfind (collapseQuoted sep.token) sep.token with
        | none => simp [rpartition, hr]
        | some i =>
          have hs := rfind_spec ht hr
          have hb := matchAt_le ht hs.1
          rw [collapseQuoted_length] at hb
          have ht' : 0 < sep.token.length := List.length_pos.mpr ht
          have hz : i = 0 := by omega
          subst hz
          simp [rpartition, hr]
      · simp [rpartition, h]
      · have hs := rfind_spec ht h
        have hb := matchAt_le ht hs.1
        have hEq : (collapseQuoted line).length - sep.token.length + sep.token.length
            = (collapseQuoted line).length := by omega
        simp [rpartition, h, hEq, List.drop_length]
      · exact h
    unfold candidatesForLine
    split <;> rfl
  · simp only [run]
    exact foldl_set_get_ne
      (fun c => alignLine (calc_left_col_width tw (allCandidates tw seps doc sel)).1
        (calc_left_col_width tw (allCandidates tw seps doc sel)).2 c)
      ln (allCandidates tw seps doc sel) doc hno

/-- Witness for C9: the line consisting of just `=` yields no candidate
and is left untouched. -/
theorem degenerate_no_candidate_witness :
    ((⟨"=".data, "left".data⟩ : Separator).token ≠ [])
  ∧ (candidatesForLine 4 ⟨"=".data, "left".data⟩ 0 "=".data = []
     ∧ (run 4 [⟨"=".data, "left".data⟩] ["=".data] [0]).1.get? 0
         = (["=".data] : List Str).get? 0) :=
  ⟨by decide, degenerate_no_candidate 4 ⟨"=".data, "left".data⟩ 0 "=".data
      [⟨"=".data, "left".data⟩] ["=".data] [0] (by decide) (Or.inl rfl) (by decide)⟩

/-- C3, corrected: for any candidate of an invocation, the column at
which the right-hand column string is appended is
`indent + left_col_width` under LEFT (or unrecognized) gravity and
`indent + left_col_width + len(separator)` under RIGHT gravity — uniform
across candidates of equal gravity and equal separator width, but not
regardless of gravity and separator width. -/
theorem right_col_start_uniform (tw : Nat) (cands : List Candidate) (c : Candidate)
    (hc : c ∈ cands) :
    rightColStart (calc_left_col_width tw cands).1 (calc_left_col_width tw cands).2 c
      = (calc_left_col_width tw cands).1 + (calc_left_col_width tw cands).2
        + (if c.gravity = "right".data then c.separator.length else 0) :=
  rightColStart_formula _ _ c (calc_width_ge tw cands c hc)

/-- The right-gravity candidate of the aligned line `x=1`, as discovered
by the invocation used in the C3 witness. -/
def c3cand : Candidate :=
  { line := 0, original := "x=1".data, separator := "=".data, gravity := "right".data,
    initial_indent := none, left_col := "x".data, right_col := "1".data }

/-- Witness for C3: the single candidate of a one-line invocation. -/
theorem right_col_start_uniform_witness :
    c3cand ∈ [c3cand]
  ∧ rightColStart (calc_left_col_width 4 [c3cand]).1 (calc_left_col_width 4 [c3cand]).2
        c3cand
      = (calc_left_col_width 4 [c3cand]).1 + (calc_left_col_width 4 [c3cand]).2
        + (if c3cand.gravity = "right".data then c3cand.separator.length else 0) :=
  ⟨by decide, right_col_start_uniform 4 [c3cand] c3cand (by decide)⟩

/-- C3, counterexample: one invocation with separators `=` (LEFT gravity)
and `:` (RIGHT gravity) over the lines `a=b` and `c:d` produces two
candidates whose rewritten lines start their right-hand segments at
columns 8 and 9 respectively — not at the same column offset. -/
theorem right_col_not_uniform :
    (allCandidates 4 [⟨"=".data, "left".data⟩, ⟨":".data, "right".data⟩]
        ["a=b".data, "c:d".data] [0, 1]).map
      (fun c => rightColStart
        (calc_left_col_width 4 (allCandidates 4
          [⟨"=".data, "left".data⟩, ⟨":".data, "right".data⟩]
          ["a=b".data, "c:d".data] [0, 1])).1
        (calc_left_col_width 4 (allCandidates 4
          [⟨"=".data, "left".data⟩, ⟨":".data, "right".data⟩]
          ["a=b".data, "c:d".data] [0, 1])).2 c)
      = [8, 9]
  ∧ ¬ ((8 : Nat) = 9) :=
  ⟨by decide, by decide⟩

/-- C4, confirmed: for a RIGHT-gravity candidate of an invocation, the
replacement line is the indented left segment, the padding that would
bring the separator's trailing edge to the boundary
`indent + left_col_width`, an extra run of spaces of the separator's own
width, and the separator — which therefore ends at
`indent + left_col_width + len(separator)` — followed by the right
segment prefixed with exactly one space. -/
theorem right_gravity_layout (tw : Nat) (cands : List Candidate) (c : Candidate)
    (hc : c ∈ cands) (hg : c.gravity = "right".data) :
    alignLine (calc_left_col_width tw cands).1 (calc_left_col_width tw cands).2 c
      = List.replicate (calc_left_col_width tw cands).1 ' ' ++ c.left_col
        ++ List.replicate ((calc_left_col_width tw cands).2
             - c.left_col.length - c.separator.length) ' '
        ++ List.replicate c.separator.length ' '
        ++ c.separator ++ ' ' :: pystrip c.right_col
  ∧ (alignLine (calc_left_col_width tw cands).1 (calc_left_col_width tw cands).2 c).drop
        ((calc_left_col_width tw cands).1 + (calc_left_col_width tw cands).2)
      = c.separator ++ ' ' :: pystrip c.right_col := by
  have h := calc_width_ge tw cands c hc
  constructor
  · exact alignLine_right _ _ c hg h
  · rw [alignLine_right _ _ c hg h]
    rw [show List.replicate (calc_left_col_width tw cands).1 ' ' ++ c.left_col
          ++ List.replicate ((calc_left_col_width tw cands).2
               - c.left_col.length - c.separator.length) ' '
          ++ List.replicate c.separator.length ' '
          ++ c.separator ++ ' ' :: pystrip c.right_col
        = (List.replicate (calc_left_col_width tw cands).1 ' ' ++ c.left_col
            ++ List.replicate ((calc_left_col_width tw cands).2
                 - c.left_col.length - c.separator.length) ' '
            ++ List.replicate c.separator.length ' ')
          ++ (c.separator ++ ' ' :: pystrip c.right_col) by simp [List.append_assoc]]
    exact drop_of_eq_length _ _ _
      (by simp only [List.length_append, List.length_replicate]; omega)

/-- The separator spec `{"=": right}` of the C4 example. -/
def rightSep : Separator := ⟨"=".data, "right".data⟩

/-- The two selected lines of the C4 example. -/
def rightDoc : List Str := ["x=1".data, "longname=2".data]

/-- The candidate discovered for the line `x=1` in the C4 example. -/
def rightCand : Candidate :=
  { line := 0, original := "x=1".data, separator := "=".data, gravity := "right".data,
    initial_indent := none, left_col := "x".data, right_col := "1".data }

/-- Witness for C4: in the invocation with separators `{"=": right}` at
tab width 4 over `x=1` and `longname=2`, the separator of the `x=1`
candidate ends at the shared boundary plus its own width; both rewritten
lines carry `=` at column 14 and their values at column 16. -/
theorem right_gravity_layout_witness :
    (rightCand ∈ allCandidates 4 [rightSep] rightDoc [0, 1]
      ∧ rightCand.gravity = "right".data)
  ∧ (alignLine (calc_left_col_width 4 (allCandidates 4 [rightSep] rightDoc [0, 1])).1
        (calc_left_col_width 4 (allCandidates 4 [rightSep] rightDoc [0, 1])).2 rightCand
      = List.replicate (calc_left_col_width 4 (allCandidates 4 [rightSep] rightDoc [0, 1])).1 ' '
          ++ rightCand.left_col
          ++ List.replicate ((calc_left_col_width 4 (allCandidates 4 [rightSep] rightDoc [0, 1])).2
               - rightCand.left_col.length - rightCand.separator.length) ' '
          ++ List.replicate rightCand.separator.length ' '
          ++ rightCand.separator ++ ' ' :: pystrip rightCand.right_col
     ∧ (alignLine (calc_left_col_width 4 (allCandidates 4 [rightSep] rightDoc [0, 1])).1
          (calc_left_col_width 4 (allCandidates 4 [rightSep] rightDoc [0, 1])).2 rightCand).drop
            ((calc_left_col_width 4 (allCandidates 4 [rightSep] rightDoc [0, 1])).1
              + (calc_left_col_width 4 (allCandidates 4 [rightSep] rightDoc [0, 1])).2)
          = rightCand.separator ++ ' ' :: pystrip rightCand.right_col)
  ∧ ((run 4 [rightSep] rightDoc [0, 1]).1
       = ["    x         = 1".data, "    longname  = 2".data]
     ∧ ("    x         = 1".data).get? 14 = some '='
     ∧ ("    longname  = 2".data).get? 14 = some '='
     ∧ ("    x         = 1".data).get? 16 = some '1'
     ∧ ("    longname  = 2".data).get? 16 = some '2') :=
  ⟨⟨by decide, by decide⟩,
   right_gravity_layout 4 (allCandidates 4 [rightSep] rightDoc [0, 1]) rightCand
     (by decide) (by decide),
   ⟨by decide, by decide, by decide, by decide, by decide⟩⟩

/-- C5, confirmed: separator specs are processed in ascending token-length
order (a stable sort of the configured list — sorted and a permutation);
with the specs `==` and `=` both active (given longest first), processing
visits `=` before `==`, the line `ab == c` yields one candidate per spec
in that order, and the final rewritten text is the `==` candidate's
replacement, aligned on the `==` token. -/
theorem separator_order (seps : List Separator) :
    List.Sorted sepLe (sortSeps seps)
  ∧ List.Perm (sortSeps seps) seps
  ∧ sortSeps [⟨"==".data, "right".data⟩, ⟨"=".data, "right".data⟩]
      = [⟨"=".data, "right".data⟩, ⟨"==".data, "right".data⟩]
  ∧ (allCandidates 4 [⟨"==".data, "right".data⟩, ⟨"=".data, "right".data⟩]
        ["ab == c".data] [0]).map Candidate.separator = ["=".data, "==".data]
  ∧ (run 4 [⟨"==".data, "right".data⟩, ⟨"=".data, "right".data⟩] ["ab == c".data] [0]).1
      = ["    ab      == c".data] :=
  ⟨List.sorted_insertionSort sepLe seps, List.perm_insertionSort sepLe seps,
    by decide, by decide, by decide⟩

/-- The line `'a' = "q='a'"`, spelled as characters (39 is the single
quote). -/
def mixedQuoteLine : Str :=
  ['\x27', 'a', '\x27', ' ', '=', ' ', '"', 'q', '=', '\x27', 'a', '\x27', '"']

/-- C8, counterexample: on the line `'a' = "q='a'"` with separator `=`,
masking replaces every occurrence of the first matched literal `'a'` —
including the copy inside the second, double-quoted literal — so the
second literal `"q='a'"` is no longer found verbatim and its inner `=`
survives in the collapsed copy; the partition then splits at index 8,
strictly inside the span `[6, 13)` where that matched literal sits, and a
candidate is emitted whose left segment ends inside the literal. -/
theorem mask_corruption :
    findQuoted mixedQuoteLine
      = [['\x27', 'a', '\x27'], ['"', 'q', '=', '\x27', 'a', '\x27', '"']]
  ∧ collapseQuoted mixedQuoteLine = "___ = \"q=___\"".data
  ∧ (mixedQuoteLine.drop 6).take 7 = ['"', 'q', '=', '\x27', 'a', '\x27', '"']
  ∧ rpartition (collapseQuoted mixedQuoteLine) "=".data
      = ("___ = \"q".data, "=".data, "___\"".data)
  ∧ candidatesForLine 4 ⟨"=".data, "left".data⟩ 0 mixedQuoteLine
      = [{ line := 0, original := mixedQuoteLine, separator := "=".data,
           gravity := "left".data, initial_indent := none,
           left_col := ['\x27', 'a', '\x27', ' ', '=', ' ', '"', 'q'],
           right_col := ['\x27', 'a', '\x27', '"'] }]
  ∧ (6 < 8 ∧ 8 < 6 + 7) :=
  ⟨by decide, by decide, by decide, by decide, by decide, by decide⟩

/-- C8, amended: collapsing quoted literals preserves the line's length,
so positions found in the collapsed copy are positions in the original
line; and the spec's example behaves as stated: `x = "a=b"` with
separator `=` splits on the `=` after `x` and before the literal, with
the emitted candidate's segments taken from the original, unmasked
text. -/
theorem mask_length_and_example (line : Str) :
    (collapseQuoted line).length = line.length
  ∧ candidatesForLine 4 ⟨"=".data, "left".data⟩ 0 "x = \"a=b\"".data
      = [{ line := 0, original := "x = \"a=b\"".data, separator := "=".data,
           gravity := "left".data, initial_indent := none,
           left_col := "x ".data, right_col := " \"a=b\"".data }] :=
  ⟨collapseQuoted_length line, by decide⟩

/-- C10, confirmed: the final text of a selected line is the replacement
computed for the last candidate recorded for that line (so when several
separator specs match one line, the last-processed spec's replacement
supersedes the earlier ones); the resulting selection holds one cursor
per candidate — superseded candidates included — at column
`indent + left_col_width`; and every candidate, superseded or not,
bounds the shared layout width by its left-segment and separator
widths. -/
theorem multi_separator_last_wins (tw : Nat) (seps : List Separator) (doc : List Str)
    (sel : List Nat) (ln : Nat) (hln : ln < doc.length) :
    ((run tw seps doc sel).1.get? ln
       = (lastWrite ln (allCandidates tw seps doc sel)).elim (doc.get? ln)
           (fun c => some (alignLine
             (calc_left_col_width tw (allCandidates tw seps doc sel)).1
             (calc_left_col_width tw (allCandidates tw seps doc sel)).2 c)))
  ∧ (run tw seps doc sel).2
      = (allCandidates tw seps doc sel).map
          (fun c => (c.line,
            (calc_left_col_width tw (allCandidates tw seps doc sel)).1
              + (calc_left_col_width tw (allCandidates tw seps doc sel)).2))
  ∧ ∀ c ∈ allCandidates tw seps doc sel,
      c.left_col.length + c.separator.length
        ≤ (calc_left_col_width tw (allCandidates tw seps doc sel)).2 := by
  refine ⟨?_, rfl, fun c hc => calc_width_ge tw _ c hc⟩
  simp only [run]
  exact foldl_set_get _ ln (allCandidates tw seps doc sel) doc hln

/-- The separator specs of the C10 witness. -/
def noteSeps : List Separator := [⟨"=".data, "left".data⟩, ⟨";".data, "left".data⟩]

/-- The selected line of the C10 witness. -/
def noteDoc : List Str := ["k = v ; note".data]

/-- Witness for C10: the line `k = v ; note` matches both `=` and `;`;
the `;` candidate is processed last and its replacement is the final
text, while the selection gets two cursors, both at column 14. -/
theorem multi_separator_last_wins_witness :
    0 < noteDoc.length
  ∧ (((run 4 noteSeps noteDoc [0]).1.get? 0
       = (lastWrite 0 (allCandidates 4 noteSeps noteDoc [0])).elim (noteDoc.get? 0)
           (fun c => some (alignLine
             (calc_left_col_width 4 (allCandidates 4 noteSeps noteDoc [0])).1
             (calc_left_col_width 4 (allCandidates 4 noteSeps noteDoc [0])).2 c)))
     ∧ (run 4 noteSeps noteDoc [0]).2
         = (allCandidates 4 noteSeps noteDoc [0]).map
             (fun c => (c.line,
               (calc_left_col_width 4 (allCandidates 4 noteSeps noteDoc [0])).1
                 + (calc_left_col_width 4 (allCandidates 4 noteSeps noteDoc [0])).2))
     ∧ ∀ c ∈ allCandidates 4 noteSeps noteDoc [0],
         c.left_col.length + c.separator.length
           ≤ (calc_left_col_width 4 (allCandidates 4 noteSeps noteDoc [0])).2)
  ∧ ((run 4 noteSeps noteDoc [0]).1 = ["    k = v ;   note".data]
     ∧ (allCandidates 4 noteSeps noteDoc [0]).map Candidate.separator
         = ["=".data, ";".data]
     ∧ (run 4 noteSeps noteDoc [0]).2 = [(0, 14), (0, 14)]) :=
  ⟨by decide, multi_separator_last_wins 4 noteSeps noteDoc [0] 0 (by decide),
   ⟨by decide, by decide, by decide⟩⟩

end Abacus
